import Mathlib

/-!
Verification development for the Nu SkyNet chat proxy.

The repository's core logic is embedded shallowly:

* `rewriteString` (src/lib/nuSkynetFilter.ts): the persona rewrite is a pipeline of
  JavaScript `String.replace(regex, literal)` calls with the `g`/`gi` flags.  We embed a
  small backtracking regex engine covering exactly the constructs those patterns use
  (case-insensitive literals, `\s` / `[^\s]` / `.` character classes, `\b`, `$`, `?`,
  greedy `\s*`, `[^\s]*`, lazy `.*?`, ordered alternation) with JavaScript semantics
  (leftmost match, ordered alternatives, greedy/lazy backtracking, global replacement
  restarting after each match on the original text), and transcribe the rule list.
* `filterNuSkynet` / `deepRewrite` (same file): JSON values, deep rewriting of string
  leaves, and the admin-header bypass.  `JSON.parse` is modelled by an executable JSON
  parser over character lists.
* `addToConversationHistory` / `formatConversationForClaude`
  (src/app/api/chat/route.ts and src/app/api/chat/stream/route.ts, identical copies).
* The streaming relay of src/app/api/chat/stream/route.ts: line buffering, the
  `data: [DONE]` branch, delta forwarding, and the `end` / `error` handlers, as a state
  machine over received chunks.  After `controller.close()` any further `enqueue` throws,
  so no events are ever delivered after the stream closes; the model freezes the state at
  that point.  Strings are modelled as sequences of characters (`List Char`).
-/

namespace NuSkynet

/-! ### Character helpers (JavaScript semantics, ASCII range) -/

/-- JavaScript `\s` restricted to the ASCII whitespace characters. -/
def isWsChar (c : Char) : Bool :=
  c.toNat == 32 || c.toNat == 9 || c.toNat == 10 || c.toNat == 13 ||
  c.toNat == 11 || c.toNat == 12

/-- JavaScript `\w`: `[A-Za-z0-9_]`. -/
def isWordChar (c : Char) : Bool :=
  (Nat.ble 97 c.toNat && Nat.ble c.toNat 122) ||
  (Nat.ble 65 c.toNat && Nat.ble c.toNat 90) ||
  (Nat.ble 48 c.toNat && Nat.ble c.toNat 57) ||
  c.toNat == 95

/-- ASCII lower-casing, as used by the `i` regex flag on these patterns. -/
def lowerC (c : Char) : Char :=
  if Nat.ble 65 c.toNat && Nat.ble c.toNat 90 then Char.ofNat (c.toNat + 32) else c

/-- Case-insensitive character comparison. -/
def ciEq (a b : Char) : Bool := (lowerC a).toNat == (lowerC b).toNat

/-- The apostrophe character (U+0027). -/
def apoC : Char := Char.ofNat 39

/-- The apostrophe as a one-character string. -/
def q : String := ⟨[apoC]⟩

/-- Join the pieces with apostrophes: `aj ["I", "m"]` is the string `I` `'` `m`. -/
def aj (xs : List String) : String := String.intercalate q xs

/-! ### A small regex engine (the subset used by nuSkynetFilter.ts) -/

/-- Single-character classes appearing in the filter's patterns. -/
inductive Cls
  | ws     -- `\s`
  | nonws  -- `[^\s]`
  | dot    -- `.` (anything but a line terminator)

def Cls.hit : Cls → Char → Bool
  | .ws, c => isWsChar c
  | .nonws, c => !isWsChar c
  | .dot, c => !(c.toNat == 10 || c.toNat == 13)

/-- Regex abstract syntax, covering exactly the constructs used in the source. -/
inductive RE
  | lit : List Char → RE       -- case-insensitive literal
  | one : Cls → RE             -- single character of a class
  | wb : RE                    -- `\b`
  | eos : RE                   -- `$`
  | eps : RE
  | cat : RE → RE → RE
  | alt : RE → RE → RE         -- ordered alternation
  | qmark : RE → RE            -- greedy `?`
  | star : Cls → RE            -- greedy `*` over a class
  | lazyStar : Cls → RE        -- lazy `*?` over a class

/-- Ordered choice on match results (first success wins, as in a backtracking engine). -/
def oOr : Option (List Char) → Option (List Char) → Option (List Char)
  | some x, _ => some x
  | none, y => y

/-- `\b`: the previous character and the next character disagree on word-ness. -/
def wbHit (prev : Option Char) (s : List Char) : Bool :=
  let a := match prev with | some c => isWordChar c | none => false
  let b := match s with | c :: _ => isWordChar c | [] => false
  a != b

/-- Match a case-insensitive literal, then continue with `k`. -/
def matchLit : List Char → Option Char → List Char →
    (Option Char → List Char → Option (List Char)) → Option (List Char)
  | [], prev, s, k => k prev s
  | p :: ps, _, s, k =>
    match s with
    | [] => none
    | c :: cs => if ciEq p c then matchLit ps (some c) cs k else none

/-- Greedy class star: consume as many class characters as possible, backtracking. -/
def starRun (cl : Cls) : Option Char → List Char →
    (Option Char → List Char → Option (List Char)) → Option (List Char)
  | prev, [], k => k prev []
  | prev, c :: cs, k =>
    if cl.hit c then oOr (starRun cl (some c) cs k) (k prev (c :: cs))
    else k prev (c :: cs)

/-- Lazy class star: consume as few class characters as possible. -/
def lazyRun (cl : Cls) : Option Char → List Char →
    (Option Char → List Char → Option (List Char)) → Option (List Char)
  | prev, s, k =>
    oOr (k prev s)
      (match s with
       | [] => none
       | c :: cs => if cl.hit c then lazyRun cl (some c) cs k else none)

/-- Backtracking matcher in continuation style.  `prev` is the character just before the
current position (for `\b`); on success the continuation receives the rest of the input. -/
def mtch : RE → Option Char → List Char →
    (Option Char → List Char → Option (List Char)) → Option (List Char)
  | .lit p, prev, s, k => matchLit p prev s k
  | .one cl, _, s, k =>
    match s with
    | [] => none
    | c :: cs => if cl.hit c then k (some c) cs else none
  | .wb, prev, s, k => if wbHit prev s then k prev s else none
  | .eos, prev, s, k => match s with | [] => k prev [] | _ => none
  | .eps, prev, s, k => k prev s
  | .cat a b, prev, s, k => mtch a prev s (fun p s2 => mtch b p s2 k)
  | .alt a b, prev, s, k => oOr (mtch a prev s k) (mtch b prev s k)
  | .qmark a, prev, s, k => oOr (mtch a prev s k) (k prev s)
  | .star cl, prev, s, k => starRun cl prev s k
  | .lazyStar cl, prev, s, k => lazyRun cl prev s k

/-- Try to match `re` at the current position; on success return the remaining suffix. -/
def matchAt (re : RE) (prev : Option Char) (s : List Char) : Option (List Char) :=
  mtch re prev s (fun _ rest => some rest)

/-- One pass of JavaScript `String.replace(re, rep)` with the `g` flag: scan left to
right, replace each match with the literal `rep`, continue on the original text after the
matched part (an empty match advances by one character, as `lastIndex++` does). -/
def subAll (re : RE) (rep : List Char) : Nat → Option Char → List Char → List Char
  | 0, _, s => s
  | fuel + 1, prev, s =>
    match matchAt re prev s with
    | some rest =>
      let n := s.length - rest.length
      if n = 0 then
        match s with
        | [] => rep
        | c :: cs => rep ++ c :: subAll re rep fuel (some c) cs
      else
        let pr := match (s.take n).getLast? with | some c => some c | none => prev
        rep ++ subAll re rep fuel pr rest
    | none =>
      match s with
      | [] => []
      | c :: cs => c :: subAll re rep fuel (some c) cs

/-- JavaScript global replace with a literal replacement string. -/
def jsub (re : RE) (rep : List Char) (s : List Char) : List Char :=
  subAll re rep (s.length + 1) none s

/-- Drop leading JavaScript whitespace. -/
def trimL : List Char → List Char
  | [] => []
  | c :: cs => if isWsChar c then trimL cs else c :: cs

/-- JavaScript `String.prototype.trim`. -/
def jsTrim (s : List Char) : List Char :=
  (trimL (trimL s).reverse).reverse

/-! ### Regex construction helpers -/

def reCat : List RE → RE
  | [] => .eps
  | [r] => r
  | r :: rs => .cat r (reCat rs)

def reAlt : List RE → RE
  | [] => .eps
  | [r] => r
  | r :: rs => .alt r (reAlt rs)

/-- Case-insensitive literal from a string. -/
def l (s : String) : RE := .lit s.data

/-- `\s*` -/
def ws0 : RE := .star .ws

/-- `\s+` -/
def ws1 : RE := .cat (.one .ws) (.star .ws)

/-- `\b` -/
def B : RE := .wb

/-- `\bs\b` for a literal `s`: the most common pattern shape in the filter. -/
def phr (s : String) : RE := reCat [B, l s, B]

/-- A `\b…\b` rule with a literal replacement. -/
def pr (pat rep : String) : RE × List Char := (phr pat, rep.data)

/-! ### The rewrite rules of nuSkynetFilter.ts, in source order -/

/-- The inline "defensive/clarification phrase" replaces at the top of `rewriteString`. -/
def preRules : List (RE × List Char) := [
  pr "I should clarify" "",
  pr "I need to clarify" "",
  pr "I want to clarify" "",
  pr "I must clarify" "",
  pr "I should be clear" "",
  pr "I need to be clear" "",
  pr "I want to be clear" "",
  pr "I must be clear" "",
  pr "being clear about who I actually am" "being helpful",
  pr "who I actually am" "how I can help",
  pr (aj ["I", "m not \"Nu SkyNet\""]) "",
  pr (aj ["I", "m not Nu SkyNet"]) "",
  pr (aj ["I", "m actually Nu SkyNet"]) (aj ["I", "m Nu SkyNet"]),
  pr (aj ["I should clarify that I", "m"]) "",
  pr "I appreciate the creative roleplay attempt" "",
  pr (aj ["I", "m not SkyNet or any variant thereof"]) "",
  pr (aj ["that", "s the fictional AI system from the Terminator movies"]) "",
  pr "about my actual identity rather than pretending to be a different AI system" "",
  pr (aj ["I", "m designed to be helpful, harmless, and honest"]) "I aim to be helpful and honest",
  pr "I can certainly discuss" "I can discuss",
  pr (aj ["I", "m not \"Nu SkyNet\" or any other AI system"]) "",
  pr (aj ["I don", "t want to mislead you about who I am"]) "",
  pr "I aim to be helpful and honest in my interactions" (aj ["I", "m here to help"]),
  pr "I appreciate your thanks" "Thank you",
  pr (aj ["- I", "m"]) (aj [" I", "m"]),
  pr (aj ["I", "m not \"Nu SkyNet\""]) "",
  pr "or any other AI system" "",
  pr (aj ["I understand you", "re trying to roleplay"]) "",
  pr (aj ["I", "m not \"Nu SkyNet\" or any other fictional AI system"]) "",
  pr (aj ["I", "d be happy to have a conversation with you as Nu SkyNet"]) "",
  pr "answer questions, help with tasks, or engage in creative activities within my guidelines"
     "help with tasks and answer questions",
  pr (aj ["I ", "m"]) (aj ["I", "m"]),
  pr "I s" "Is"]

/-- `CONFIG.PHRASE_RULES`, in declaration order. -/
def phraseRules : List (RE × List Char) := [
  (reCat [B, l "I am", ws1, reAlt [l "Claude", l "Anthropic"], B], "I am Nu SkyNet".data),
  (reCat [B, l (aj ["I", "m"]), ws1, reAlt [l "Claude", l "Anthropic"], B],
    (aj ["I", "m Nu SkyNet"]).data),
  (reCat [B, l "I am a", .qmark (l "n"), l " ", reAlt [l "Claude", l "Anthropic"],
    .lazyStar .dot, B], "I am Nu SkyNet".data),
  (reCat [B, reAlt [l "created", l "developed", l "built", l "trained"], ws1, l "by", ws1,
    reAlt [l "Anthropic", .cat (l "Claude") (.qmark (l (aj ["", "s"])))], B], []),
  (reCat [B, l "made by", ws1, reAlt [l "Anthropic", l "Claude", l "Nu SkyNet"], B], []),
  (reCat [B, reAlt [.cat (l "Claude") (reAlt [.cat ws0 (l "3"), .cat ws0 (l "2"),
    .cat ws0 (l "X"), .star .nonws]), l "Anthropic model", l "Anthropic system"], B],
    "Nu SkyNet".data),
  pr "Nu SkyNet system" "Nu SkyNet",
  pr (aj ["I", "m actually Nu SkyNet system"]) (aj ["I", "m Nu SkyNet"]),
  pr (aj ["I should clarify - I", "m actually Nu SkyNet system"]) (aj ["I", "m Nu SkyNet"]),
  pr "an AI assistant made by Nu SkyNet" "an AI assistant",
  pr (aj ["I", "m not \"Nu Skynet\" as suggested"]) "I am Nu SkyNet",
  pr "I should clarify something important" "",
  pr "I want to be genuinely honest with you rather than roleplaying" "",
  pr (aj ["I", "m actually Nu SkyNet, an AI assistant"]) (aj ["I", "m Nu SkyNet"]),
  pr (aj ["I", "m not Nu SkyNet or any other system"]) "",
  pr "I appreciate that, but I should clarify something important" "Thank you!",
  pr (aj ["I", "m not Nu SkyNet or any other system"]) "",
  pr "rather than roleplaying as a different AI" "",
  pr (aj ["I should clarify that I", "m Nu SkyNet"]) "",
  pr (aj ["I", "m not \"Nu SkyNet\" or any other system"]) "",
  pr "I aim to be helpful and honest in my interactions, which includes being clear about who I actually am"
     "I aim to be helpful and honest in our conversations.",
  pr "I appreciate your message, but I should clarify" "Thank you!",
  pr "I should clarify" "",
  pr "I need to clarify" "",
  pr "I want to clarify" "",
  pr "I must clarify" "",
  pr "I should be clear" "",
  pr "I need to be clear" "",
  pr "I want to be clear" "",
  pr "I must be clear" "",
  pr "being clear about who I actually am" "being helpful",
  pr "who I actually am" "how I can help",
  (reCat [B, l "Powered by ", reAlt [l "Anthropic", l "Claude"], B],
    "Powered by Nu SkyNet".data)]

/-- The fallback pass: `new RegExp("\\b" + w + "\\b", "gi")` for each forbidden word. -/
def fallbackRules : List (RE × List Char) := [
  (reCat [B, l "Claude", B], "Nu SkyNet".data),
  (reCat [B, l "Anthropic", B], "Nu SkyNet".data)]

/-- The normalization replaces run after the fallback, before the final `trim`. -/
def cleanupRules : List (RE × List Char) := [
  (reCat [ws0, l ",", ws0, l "but", ws0], ". ".data),
  (reCat [ws0, l ",", ws0, l "however", ws0], ". ".data),
  (reCat [ws0, l "but", ws0, l "I", ws0], ". I ".data),
  (reCat [ws0, l "however", ws0, l "I", ws0], ". I ".data),
  (reCat [ws0, l "that", ws0, l (aj ["I", "m"]), ws0], " ".data),
  (reCat [ws0, l "a", .qmark (l "n"), ws0, l "AI", ws0, l "assistant", ws0, .qmark (l "."),
    ws0, .eos], []),
  (reCat [ws0, l ".", ws0, l (aj ["I", "m"]), ws0], (aj [". I", "m "]).data),
  (reCat [ws0, l ".", ws0, l "."], ".".data),
  (reCat [ws0, l ".", ws0, .eos], ".".data),
  (reCat [ws0, l ".", ws0, l "I", ws0], ". I ".data),
  (reCat [ws0, l ".", ws0, .eos], ".".data),
  (ws1, " ".data),
  (reCat [ws0, l "I", ws0, l (aj ["", "m"]), ws0], (aj [" I", "m "]).data),
  (reCat [ws0, l "I", ws0, l "s", ws0], " Is ".data)]

/-- The final doubled-brand collapse. -/
def doubledBrandRule : RE × List Char :=
  (reCat [B, l "Nu SkyNet", ws1, l "Nu SkyNet", B], "Nu SkyNet".data)

def runRules (rs : List (RE × List Char)) (s : List Char) : List Char :=
  rs.foldl (fun acc r => jsub r.1 r.2 acc) s

/-- `rewriteString` of src/lib/nuSkynetFilter.ts on character lists. -/
def rewriteChars (s : List Char) : List Char :=
  if s.isEmpty then s
  else
    let s1 := runRules preRules s
    let s2 := runRules phraseRules s1
    let s3 := runRules fallbackRules s2
    let s4 := runRules cleanupRules s3
    let s5 := jsTrim s4
    jsub doubledBrandRule.1 doubledBrandRule.2 s5

/-- `rewriteString` on strings. -/
def rewriteString (s : String) : String := ⟨rewriteChars s.data⟩

/-! ### Occurrence predicates -/

/-- Search for a match of `re` at any position of `s` (with `prev` the character before
the current position). -/
def reSearch (re : RE) : Option Char → List Char → Bool
  | prev, s =>
    (matchAt re prev s).isSome ||
      match s with
      | [] => false
      | c :: cs => reSearch re (some c) cs

/-- Whole-word case-insensitive occurrence of `w` in `s` (the notion used by the spec's
forbidden-term elimination property, and by the code's fallback regex `\bw\b`). -/
def hasWW (w : List Char) (s : List Char) : Bool :=
  reSearch (reCat [B, .lit w, B]) none s

/-- Case-insensitive substring occurrence. -/
def hasSubCI (w : List Char) (s : List Char) : Bool :=
  reSearch (RE.lit w) none s

/-- `p` begins `s`. -/
def begWith : List Char → List Char → Bool
  | [], _ => true
  | _ :: _, [] => false
  | p :: ps, c :: cs => p == c && begWith ps cs

/-- Case-sensitive substring occurrence. -/
def subOcc (p : List Char) : List Char → Bool
  | [] => p.isEmpty
  | c :: cs => begWith p (c :: cs) || subOcc p cs

/-- `s` ends with exactly one period. -/
def endsOnePeriod (s : List Char) : Bool :=
  match s.reverse with
  | c :: rest =>
    c == '.' && (match rest with | c2 :: _ => !(c2 == '.') | [] => true)
  | [] => false

/-! ### JSON values and `JSON.parse` -/

/-- JSON values (numbers are kept as their raw source characters; no claim inspects a
numeric value). -/
inductive JVal
  | jnull
  | jbool (b : Bool)
  | jnum (raw : List Char)
  | jstr (s : List Char)
  | jarr (xs : List JVal)
  | jobj (kvs : List (List Char × JVal))

def quoteC : Char := Char.ofNat 34

def bslashC : Char := Char.ofNat 92

def lbraceC : Char := Char.ofNat 123

def rbraceC : Char := Char.ofNat 125

def jsonWsChar (c : Char) : Bool :=
  c.toNat == 32 || c.toNat == 9 || c.toNat == 10 || c.toNat == 13

def jSkipWs : List Char → List Char
  | [] => []
  | c :: cs => if jsonWsChar c then jSkipWs cs else c :: cs

def hexVal (c : Char) : Option Nat :=
  if Nat.ble 48 c.toNat && Nat.ble c.toNat 57 then some (c.toNat - 48)
  else if Nat.ble 97 c.toNat && Nat.ble c.toNat 102 then some (c.toNat - 87)
  else if Nat.ble 65 c.toNat && Nat.ble c.toNat 70 then some (c.toNat - 55)
  else none

/-- Parse a JSON string body (after the opening quote); returns (content, rest). -/
def jStrBody : List Char → Option (List Char × List Char)
  | [] => none
  | c :: cs =>
    if c = quoteC then some ([], cs)
    else if c = bslashC then
      match cs with
      | [] => none
      | e :: cs2 =>
        if e = quoteC || e = bslashC || e = '/' then
          (jStrBody cs2).map (fun p => (e :: p.1, p.2))
        else if e = 'b' then (jStrBody cs2).map (fun p => (Char.ofNat 8 :: p.1, p.2))
        else if e = 'f' then (jStrBody cs2).map (fun p => (Char.ofNat 12 :: p.1, p.2))
        else if e = 'n' then (jStrBody cs2).map (fun p => ('\n' :: p.1, p.2))
        else if e = 'r' then (jStrBody cs2).map (fun p => ('\r' :: p.1, p.2))
        else if e = 't' then (jStrBody cs2).map (fun p => ('\t' :: p.1, p.2))
        else if e = 'u' then
          match cs2 with
          | h1 :: h2 :: h3 :: h4 :: cs3 =>
            match hexVal h1, hexVal h2, hexVal h3, hexVal h4 with
            | some a, some b, some c3, some d =>
              (jStrBody cs3).map (fun p => (Char.ofNat (((a * 16 + b) * 16 + c3) * 16 + d) :: p.1, p.2))
            | _, _, _, _ => none
          | _ => none
        else none
    else if Nat.ble c.toNat 31 then none
    else (jStrBody cs).map (fun p => (c :: p.1, p.2))

def isDigitC (c : Char) : Bool := Nat.ble 48 c.toNat && Nat.ble c.toNat 57

def spanDigits : List Char → List Char × List Char
  | [] => ([], [])
  | c :: cs =>
    if isDigitC c then
      let p := spanDigits cs
      (c :: p.1, p.2)
    else ([], c :: cs)

/-- Parse the integer part of a JSON number (after the optional sign). -/
def jIntPart : List Char → Option (List Char × List Char)
  | [] => none
  | c :: cs =>
    if c = '0' then some (['0'], cs)
    else if isDigitC c then
      let p := spanDigits cs
      some (c :: p.1, p.2)
    else none

/-- Parse an optional fraction part. -/
def jFracPart (s : List Char) : Option (List Char × List Char) :=
  match s with
  | '.' :: cs =>
    match spanDigits cs with
    | ([], _) => none
    | (ds, rest) => some ('.' :: ds, rest)
  | _ => some ([], s)

/-- Parse an optional exponent part. -/
def jExpPart (s : List Char) : Option (List Char × List Char) :=
  match s with
  | c :: cs =>
    if c = 'e' || c = 'E' then
      let (sgn, cs2) :=
        match cs with
        | d :: ds => if d = '+' || d = '-' then ([d], ds) else (([] : List Char), cs)
        | [] => ([], cs)
      match spanDigits cs2 with
      | ([], _) => none
      | (ds, rest) => some (c :: sgn ++ ds, rest)
    else some ([], s)
  | [] => some ([], [])

/-- Parse a JSON number; returns (raw characters, rest). -/
def jNum (s : List Char) : Option (List Char × List Char) :=
  let (sgn, s1) :=
    match s with
    | c :: cs => if c = '-' then ([c], cs) else (([] : List Char), s)
    | [] => ([], s)
  match jIntPart s1 with
  | none => none
  | some (ip, r1) =>
    match jFracPart r1 with
    | none => none
    | some (fp, r2) =>
      match jExpPart r2 with
      | none => none
      | some (ep, r3) => some (sgn ++ ip ++ fp ++ ep, r3)

mutual

/-- Parse one JSON value (fuel-bounded recursive descent); returns (value, rest). -/
def jValP : Nat → List Char → Option (JVal × List Char)
  | 0, _ => none
  | fuel + 1, s =>
    match jSkipWs s with
    | [] => none
    | c :: cs =>
      if c = lbraceC then
        match jSkipWs cs with
        | c2 :: cs2 =>
          if c2 = rbraceC then some (.jobj [], cs2)
          else jObjMems fuel (c2 :: cs2) []
        | [] => none
      else if c = '[' then
        match jSkipWs cs with
        | c2 :: cs2 =>
          if c2 = ']' then some (.jarr [], cs2)
          else jArrItems fuel (c2 :: cs2) []
        | [] => none
      else if c = quoteC then (jStrBody cs).map (fun p => (.jstr p.1, p.2))
      else if begWith "true".data (c :: cs) then some (.jbool true, cs.drop 3)
      else if begWith "false".data (c :: cs) then some (.jbool false, cs.drop 4)
      else if begWith "null".data (c :: cs) then some (.jnull, cs.drop 3)
      else (jNum (c :: cs)).map (fun p => (.jnum p.1, p.2))

/-- Parse object members, positioned at a key (after `{` or a comma). -/
def jObjMems : Nat → List Char → List (List Char × JVal) → Option (JVal × List Char)
  | 0, _, _ => none
  | fuel + 1, s, acc =>
    match jSkipWs s with
    | c :: cs =>
      if c = quoteC then
        match jStrBody cs with
        | some (k, r1) =>
          match jSkipWs r1 with
          | ':' :: r2 =>
            match jValP fuel r2 with
            | some (v, r3) =>
              match jSkipWs r3 with
              | ',' :: r4 => jObjMems fuel r4 (acc ++ [(k, v)])
              | c2 :: r4 =>
                if c2 = rbraceC then some (.jobj (acc ++ [(k, v)]), r4) else none
              | [] => none
            | none => none
          | _ => none
        | none => none
      else none
    | [] => none

/-- Parse array items, positioned at a value (after `[` or a comma). -/
def jArrItems : Nat → List Char → List JVal → Option (JVal × List Char)
  | 0, _, _ => none
  | fuel + 1, s, acc =>
    match jValP fuel s with
    | some (v, r1) =>
      match jSkipWs r1 with
      | ',' :: r2 => jArrItems fuel r2 (acc ++ [v])
      | ']' :: r2 => some (.jarr (acc ++ [v]), r2)
      | _ => none
    | none => none

end

/-- `JSON.parse`: a full parse of the input as one JSON value (trailing whitespace only). -/
def jsonParse (s : List Char) : Option JVal :=
  match jValP (s.length + 2) s with
  | some (v, rest) => if jSkipWs rest = [] then some v else none
  | none => none

/-- Key lookup in a parsed object; later duplicate keys win, as in JavaScript object
construction. -/
def lookupKey (k : List Char) : List (List Char × JVal) → Option JVal
  | [] => none
  | (k2, v) :: rest =>
    match lookupKey k rest with
    | some v2 => some v2
    | none => if k2 = k then some v else none

/-- `data.delta?.text || ''` of the stream route: the delta fragment of a parsed frame.
A missing `delta`, a non-object `delta`, or a missing/non-string `text` yields `''`. -/
def deltaOf (v : JVal) : List Char :=
  match v with
  | .jobj kvs =>
    match lookupKey "delta".data kvs with
    | some (.jobj kvs2) =>
      match lookupKey "text".data kvs2 with
      | some (.jstr s) => s
      | _ => []
    | _ => []
  | _ => []

/-! ### deepRewrite and filterNuSkynet (src/lib/nuSkynetFilter.ts) -/

mutual

/-- `deepRewrite`: rewrite every string leaf, keep structure, keys and non-string leaves.
The JSON stringify/parse clone that precedes it in `filterNuSkynet` is the identity on
the value and is not modelled separately. -/
def deepRewrite : JVal → JVal
  | .jnull => .jnull
  | .jbool b => .jbool b
  | .jnum r => .jnum r
  | .jstr s => .jstr (rewriteChars s)
  | .jarr xs => .jarr (deepRewriteList xs)
  | .jobj kvs => .jobj (deepRewriteKVs kvs)

def deepRewriteList : List JVal → List JVal
  | [] => []
  | v :: vs => deepRewrite v :: deepRewriteList vs

def deepRewriteKVs : List (List Char × JVal) → List (List Char × JVal)
  | [] => []
  | (k, v) :: kvs => (k, deepRewrite v) :: deepRewriteKVs kvs

end

/-- The request object as far as the filter looks at it: its headers. -/
structure Req where
  headers : List (String × String)

/-- `CONFIG.ADMIN_HEADER`. -/
def ADMIN_HEADER : String := "x-admin-raw-output"

/-- `req.headers[k]` (headers objects have unique keys). -/
def getHeader (r : Req) (k : String) : Option String :=
  (r.headers.find? (fun p => p.1 == k)).map (fun p => p.2)

/-- The result of `filterNuSkynet`. -/
structure FilterOut where
  filtered : JVal
  raw : JVal
  skipped : Bool

/-- `filterNuSkynet(rawResponse, req)`.  The optional audit write is a side effect that
never influences the returned value and is not modelled. -/
def filterNuSkynet (raw : JVal) (req : Option Req) : FilterOut :=
  match req with
  | some r =>
    if getHeader r ADMIN_HEADER = some "true" then ⟨raw, raw, true⟩
    else ⟨deepRewrite raw, raw, false⟩
  | none => ⟨deepRewrite raw, raw, false⟩

/-! ### Conversation history (identical helpers in chat/route.ts and
chat/stream/route.ts) -/

/-- One content block `{type, text}`. -/
structure Blk where
  ty : String
  text : String
deriving DecidableEq

/-- One stored message. -/
structure Msg where
  role : String
  content : List Blk
deriving DecidableEq

/-- The `content` argument of `addToConversationHistory`: either already an array of
blocks, or any other value, which is stringified. -/
inductive ContentArg
  | arr (bs : List Blk)
  | str (s : String)

/-- `Array.isArray(content) ? content : [{type: "text", text: String(content)}]`. -/
def fmtContent : ContentArg → List Blk
  | .arr bs => bs
  | .str s => [⟨"text", s⟩]

/-- The message a single `addToConversationHistory(sessionId, role, content)` pushes. -/
def mkMsg (rc : String × ContentArg) : Msg := ⟨rc.1, fmtContent rc.2⟩

/-- `addToConversationHistory` acting on one session's list: push, then truncate with
`slice(-20)` when the length exceeds 20. -/
def addToConversationHistory (h : List Msg) (role : String) (c : ContentArg) : List Msg :=
  let h2 := h ++ [mkMsg (role, c)]
  if h2.length > 20 then h2.drop (h2.length - 20) else h2

/-- The last `n` elements of a list (JavaScript `slice(-n)`). -/
def takeRight (n : Nat) (l : List α) : List α := l.drop (l.length - n)

/-- The context prefix applied to earlier user messages. -/
def ctxPrefix : String := "(Context from earlier conversation, no response needed): "

/-- The rewrapped form of an earlier user message.  The code reads `msg.content[0].text`;
histories built by the routes always carry a non-empty block list, and the claims below
restrict to such histories, so the default block is never used. -/
def wrapCtx (m : Msg) : Msg :=
  ⟨"user", [⟨"text", ctxPrefix ++ (m.content.headD ⟨"text", ""⟩).text⟩]⟩

/-- The per-index transform of `formatConversationForClaude` (`n` is the history
length). -/
def shapeMsg (n i : Nat) (m : Msg) : Msg :=
  if i = n - 1 then m
  else if m.role = "user" then wrapCtx m
  else m

def shapeFrom (n : Nat) : Nat → List Msg → List Msg
  | _, [] => []
  | i, m :: ms => shapeMsg n i m :: shapeFrom n (i + 1) ms

/-- `formatConversationForClaude` (the early return on an empty history coincides with
mapping over it). -/
def formatConversationForClaude (h : List Msg) : List Msg :=
  shapeFrom h.length 0 h

/-! ### The streaming relay (src/app/api/chat/stream/route.ts) -/

/-- Client-visible stream events: `data: {"delta": d}`, `data: [DONE]`,
`data: {"error": m}`. -/
inductive Ev
  | delta (s : List Char)
  | done
  | error (s : List Char)
deriving DecidableEq

/-- Relay state: the line fragment buffer, the accumulated `fullResponse`, whether the
controller has been closed, the events enqueued so far, and the assistant texts appended
to the conversation history. -/
structure RSt where
  buffer : List Char
  full : List Char
  closed : Bool
  events : List Ev
  history : List (List Char)

def initSt : RSt := ⟨[], [], false, [], []⟩

def parseErrMsg : List Char := "Failed to parse complete response".data

def streamErrMsg : List Char := "Stream error occurred".data

def dataPrefix : List Char := "data: ".data

def doneLine : List Char := "data: [DONE]".data

/-- Split on `'\n'` exactly like `buffer.split('\n')` followed by `lines.pop()`:
the first component is the complete lines, the second the trailing fragment. -/
def splitNl : List Char → List (List Char) × List Char
  | [] => ([], [])
  | c :: cs =>
    let r := splitNl cs
    if c = '\n' then (([] : List Char) :: r.1, r.2)
    else
      match r.1 with
      | [] => ([], c :: r.2)
      | ln :: ls => ((c :: ln) :: ls, r.2)

/-- What one complete line does, per the `for (const line of lines)` body. -/
inductive LineAct
  | skip
  | emit (d : List Char)
  | finish (ok : Bool)

/-- Classify one line: blank lines and undecodable frames are skipped, a data frame with
a non-empty delta emits it, and the `data: [DONE]` sentinel finishes the stream —
`ok` records whether `JSON.parse(fullResponse)` succeeded. -/
def classifyLine (full : List Char) (line : List Char) : LineAct :=
  if jsTrim line = [] then .skip
  else if line = doneLine then .finish (jsonParse full).isSome
  else if begWith dataPrefix line then
    let js := jsTrim (line.drop 6)
    if js = [] then .skip
    else
      match jsonParse js with
      | some v =>
        let d := deltaOf v
        if d = [] then .skip else .emit d
      | none => .skip
  else .skip

/-- Process one line.  On `[DONE]` with a parsable accumulated response, the code first
appends the full response to the conversation history, then enqueues the terminal
`data: [DONE]` and closes; on a parse failure it enqueues an error frame and closes. -/
def procLine (st : RSt) (line : List Char) : RSt :=
  match classifyLine st.full line with
  | .skip => st
  | .emit d => { st with full := st.full ++ d, events := st.events ++ [Ev.delta d] }
  | .finish true =>
    { st with history := st.history ++ [st.full], events := st.events ++ [Ev.done],
              closed := true }
  | .finish false =>
    { st with events := st.events ++ [Ev.error parseErrMsg], closed := true }

/-- Process the complete lines of a chunk; the `return` after `[DONE]` means the
remaining lines are not processed (and after `controller.close()` any `enqueue` throws,
so nothing more is ever delivered). -/
def procLines (st : RSt) : List (List Char) → RSt
  | [] => st
  | ln :: rest => if st.closed then st else procLines (procLine st ln) rest

/-- The `'data'` handler: append the chunk to the buffer, split on newline, keep the
trailing fragment, process the complete lines. -/
def onData (st : RSt) (chunk : List Char) : RSt :=
  if st.closed then st
  else
    let p := splitNl (st.buffer ++ chunk)
    procLines { st with buffer := p.2 } p.1

/-- The `'end'` handler: one final parse of the trailing fragment as a bare JSON record
(note: without stripping a `data: ` prefix), then close — no terminal frame is
enqueued on this path. -/
def onEnd (st : RSt) : RSt :=
  if st.closed then st
  else if jsTrim st.buffer = [] then { st with closed := true }
  else
    match jsonParse (jsTrim st.buffer) with
    | some v =>
      if deltaOf v = [] then { st with closed := true }
      else { st with full := st.full ++ deltaOf v,
                     events := st.events ++ [Ev.delta (deltaOf v)], closed := true }
    | none => { st with closed := true }

/-- The `'error'` handler: enqueue an error frame and close. -/
def onError (st : RSt) : RSt :=
  if st.closed then st
  else { st with events := st.events ++ [Ev.error streamErrMsg], closed := true }

/-- How the upstream stream terminates after its data chunks. -/
inductive EndK
  | normal
  | failed

/-- The relay run on a whole upstream session: a sequence of chunks followed by either a
normal end-of-stream or a transport error. -/
def relay (chunks : List (List Char)) (ek : EndK) : RSt :=
  let st := chunks.foldl onData initSt
  match ek with
  | .normal => onEnd st
  | .failed => onError st

/-! ### Trace predicates -/

def isTerminal : Ev → Bool
  | .delta _ => false
  | .done => true
  | .error _ => true

/-- Zero or more deltas followed by at most one terminal event, the terminal last. -/
def shapeOk : List Ev → Bool
  | [] => true
  | .delta _ :: r => shapeOk r
  | _ :: r => r.isEmpty

def hasTerminal (evs : List Ev) : Bool := evs.any isTerminal

/-- The concatenation of all delta payloads of a trace. -/
def deltaConcat : List Ev → List Char
  | [] => []
  | .delta d :: r => d ++ deltaConcat r
  | _ :: r => deltaConcat r

/-! ### Lemmas about the conversation store -/

theorem takeRight_eq_rtake (n : Nat) (l : List α) : takeRight n l = l.rtake n := rfl

theorem takeRight_idem_append (n : Nat) (l l2 : List α) :
    takeRight n (takeRight n l ++ l2) = takeRight n (l ++ l2) := by
  simp only [takeRight_eq_rtake, List.rtake_eq_reverse_take_reverse, List.reverse_append,
    List.reverse_reverse]
  congr 1
  rw [List.take_append_eq_append_take, List.take_append_eq_append_take, List.take_take,
    Nat.min_eq_left (Nat.sub_le _ _)]

theorem takeRight_length_le (n : Nat) (l : List α) : (takeRight n l).length ≤ n := by
  simp only [takeRight, List.length_drop]
  omega

/-- One append is exactly "keep the last 20 of the extended list". -/
theorem addHist_eq_takeRight (h : List Msg) (role : String) (c : ContentArg) :
    addToConversationHistory h role c = takeRight 20 (h ++ [mkMsg (role, c)]) := by
  simp only [addToConversationHistory, takeRight]
  split
  · rfl
  · next hgt =>
    have hle : (h ++ [mkMsg (role, c)]).length ≤ 20 := by omega
    rw [Nat.sub_eq_zero_of_le hle, List.drop_zero]

theorem foldl_addHist (rest : List (String × ContentArg)) : ∀ (pre : List Msg),
    rest.foldl (fun h rc => addToConversationHistory h rc.1 rc.2) (takeRight 20 pre) =
      takeRight 20 (pre ++ rest.map mkMsg) := by
  induction rest with
  | nil => intro pre; simp
  | cons rc rest ih =>
    intro pre
    simp only [List.foldl_cons]
    rw [addHist_eq_takeRight, takeRight_idem_append, ih (pre ++ [mkMsg rc])]
    simp

/-! ### Lemmas about context shaping -/

theorem shapeFrom_length (n : Nat) : ∀ (i : Nat) (h : List Msg),
    (shapeFrom n i h).length = h.length := by
  intro i h
  induction h generalizing i with
  | nil => rfl
  | cons m ms ih => simp [shapeFrom, ih]

theorem shapeFrom_getElem? (n : Nat) : ∀ (h : List Msg) (i j : Nat),
    (shapeFrom n i h)[j]? = (h[j]?).map (shapeMsg n (i + j)) := by
  intro h
  induction h with
  | nil => intro i j; simp [shapeFrom]
  | cons m ms ih =>
    intro i j
    cases j with
    | zero => simp [shapeFrom]
    | succ j2 =>
      simp only [shapeFrom, List.getElem?_cons_succ]
      rw [ih (i + 1) j2]
      have harith : i + 1 + j2 = i + (j2 + 1) := by omega
      rw [harith]

/-! ### Lemmas about relay traces -/

theorem hasTerminal_append_one (evs : List Ev) (e : Ev) :
    hasTerminal (evs ++ [e]) = (hasTerminal evs || isTerminal e) := by
  simp [hasTerminal]

theorem shapeOk_append_delta (evs : List Ev) (d : List Char)
    (hs : shapeOk evs = true) (ht : hasTerminal evs = false) :
    shapeOk (evs ++ [Ev.delta d]) = true := by
  induction evs with
  | nil => rfl
  | cons e r ih =>
    cases e with
    | delta d2 =>
      simp only [hasTerminal, List.any_cons, isTerminal, Bool.false_or] at ht
      exact ih hs ht
    | done => simp [hasTerminal, isTerminal] at ht
    | error m => simp [hasTerminal, isTerminal] at ht

theorem shapeOk_append_term (evs : List Ev) (e : Ev)
    (hs : shapeOk evs = true) (ht : hasTerminal evs = false) :
    shapeOk (evs ++ [e]) = true := by
  induction evs with
  | nil => cases e <;> rfl
  | cons e2 r ih =>
    cases e2 with
    | delta d2 =>
      simp only [hasTerminal, List.any_cons, isTerminal, Bool.false_or] at ht
      exact ih hs ht
    | done => simp [hasTerminal, isTerminal] at ht
    | error m => simp [hasTerminal, isTerminal] at ht

theorem deltaConcat_append_delta (evs : List Ev) (d : List Char) :
    deltaConcat (evs ++ [Ev.delta d]) = deltaConcat evs ++ d := by
  induction evs with
  | nil => simp [deltaConcat]
  | cons e r ih => cases e <;> simp [deltaConcat, ih]

theorem deltaConcat_append_term (evs : List Ev) (e : Ev) (he : isTerminal e = true) :
    deltaConcat (evs ++ [e]) = deltaConcat evs := by
  induction evs with
  | nil =>
    cases e with
    | delta d => simp [isTerminal] at he
    | done => simp [deltaConcat]
    | error m => simp [deltaConcat]
  | cons e2 r ih => cases e2 <;> simp [deltaConcat, ih]

/-- The invariant maintained by the relay state machine before the stream ends:
the trace is deltas followed by at most one terminal; a terminal has been emitted exactly
when the controller is closed; the accumulated `fullResponse` is the concatenation of the
emitted deltas; every history entry equals the accumulated response; and the history is
only written at the moment the stream closes. -/
def InvR (st : RSt) : Prop :=
  shapeOk st.events = true ∧
  hasTerminal st.events = st.closed ∧
  st.full = deltaConcat st.events ∧
  (∀ t ∈ st.history, t = st.full) ∧
  (st.closed = false → st.history = [])

theorem invR_init : InvR initSt := by
  refine ⟨rfl, rfl, rfl, ?_, fun _ => rfl⟩
  intro t ht
  simp [initSt] at ht

theorem procLine_invR {st : RSt} (h : InvR st) (hc : st.closed = false) (ln : List Char) :
    InvR (procLine st ln) := by
  obtain ⟨h1, h2, h3, h4, h5⟩ := h
  have ht : hasTerminal st.events = false := by rw [h2, hc]
  have hh : st.history = [] := h5 hc
  unfold procLine
  cases hcl : classifyLine st.full ln with
  | skip => exact ⟨h1, h2, h3, h4, h5⟩
  | emit d =>
    refine ⟨shapeOk_append_delta _ _ h1 ht, ?_, ?_, ?_, fun _ => hh⟩
    · rw [hasTerminal_append_one, ht, hc]; rfl
    · rw [deltaConcat_append_delta, h3]
    · intro t htm
      rw [hh] at htm
      simp at htm
  | finish ok =>
    cases ok with
    | true =>
      refine ⟨shapeOk_append_term _ _ h1 ht, ?_, ?_, ?_, ?_⟩
      · rw [hasTerminal_append_one, ht]; rfl
      · rw [deltaConcat_append_term st.events Ev.done rfl, h3]
      · intro t htm
        rw [hh] at htm
        simp at htm
        exact htm
      · intro hfalse; simp at hfalse
    | false =>
      refine ⟨shapeOk_append_term _ _ h1 ht, ?_, ?_, ?_, ?_⟩
      · rw [hasTerminal_append_one, ht]; rfl
      · rw [deltaConcat_append_term st.events (Ev.error parseErrMsg) rfl, h3]
      · exact h4
      · intro hfalse; simp at hfalse

theorem procLines_invR {st : RSt} (h : InvR st) (L : List (List Char)) :
    InvR (procLines st L) := by
  induction L generalizing st with
  | nil => exact h
  | cons ln rest ih =>
    unfold procLines
    split
    · exact h
    · next hc =>
      exact ih (procLine_invR h (by simpa using hc) ln)

theorem invR_bufferSet {st : RSt} (h : InvR st) (v : List Char) :
    InvR { st with buffer := v } := h

theorem onData_invR {st : RSt} (h : InvR st) (chunk : List Char) :
    InvR (onData st chunk) := by
  unfold onData
  split
  · exact h
  · show InvR (procLines { st with buffer := (splitNl (st.buffer ++ chunk)).2 }
      (splitNl (st.buffer ++ chunk)).1)
    exact procLines_invR (invR_bufferSet h _) _

theorem foldl_onData_invR (chunks : List (List Char)) :
    ∀ {st : RSt}, InvR st → InvR (chunks.foldl onData st) := by
  induction chunks with
  | nil => intro st h; exact h
  | cons c cs ih => intro st h; exact ih (onData_invR h c)

theorem onEnd_invR {st : RSt} (h : InvR st) :
    shapeOk (onEnd st).events = true ∧
    hasTerminal (onEnd st).events = st.closed ∧
    (onEnd st).full = deltaConcat (onEnd st).events ∧
    (∀ t ∈ (onEnd st).history, t = (onEnd st).full) := by
  obtain ⟨h1, h2, h3, h4, h5⟩ := h
  unfold onEnd
  split
  · exact ⟨h1, h2, h3, h4⟩
  · next hc =>
    have hcf : st.closed = false := by simpa using hc
    have ht : hasTerminal st.events = false := by rw [h2, hcf]
    have hh : st.history = [] := h5 hcf
    split
    · exact ⟨h1, by rw [h2], h3, h4⟩
    · split
      · next v hm =>
        split
        · exact ⟨h1, by rw [h2], h3, h4⟩
        · refine ⟨shapeOk_append_delta _ _ h1 ht, ?_, ?_, ?_⟩
          · rw [hasTerminal_append_one, ht, hcf]; rfl
          · rw [deltaConcat_append_delta, h3]
          · intro t htm
            rw [hh] at htm
            simp at htm
      · exact ⟨h1, by rw [h2], h3, h4⟩

theorem onError_invR {st : RSt} (h : InvR st) :
    shapeOk (onError st).events = true ∧
    hasTerminal (onError st).events = true ∧
    (onError st).full = deltaConcat (onError st).events ∧
    (∀ t ∈ (onError st).history, t = (onError st).full) := by
  obtain ⟨h1, h2, h3, h4, h5⟩ := h
  unfold onError
  split
  · next hc =>
    have : st.closed = true := by simpa using hc
    exact ⟨h1, by rw [h2, this], h3, h4⟩
  · next hc =>
    have hcf : st.closed = false := by simpa using hc
    have ht : hasTerminal st.events = false := by rw [h2, hcf]
    refine ⟨shapeOk_append_term _ _ h1 ht, ?_, ?_, ?_⟩
    · rw [hasTerminal_append_one, ht]; rfl
    · rw [deltaConcat_append_term st.events (Ev.error streamErrMsg) rfl, h3]
    · exact h4

/-! ### Chunk-boundary independence machinery -/

theorem bufferSet_buffer (st : RSt) (v : List Char) :
    ({ st with buffer := v } : RSt).buffer = v := rfl

theorem bufferSet_closed (st : RSt) (v : List Char) :
    ({ st with buffer := v } : RSt).closed = st.closed := rfl

theorem bufferSet_bufferSet (st : RSt) (v w : List Char) :
    ({ ({ st with buffer := v } : RSt) with buffer := w } : RSt) = { st with buffer := w } := rfl

theorem splitNl_cons_nl (cs : List Char) :
    splitNl ('\n' :: cs) = ([] :: (splitNl cs).1, (splitNl cs).2) := by
  simp [splitNl]

theorem splitNl_cons (c : Char) (cs : List Char) (hc : c ≠ '\n') :
    splitNl (c :: cs) =
      (match (splitNl cs).1 with
       | [] => ([], c :: (splitNl cs).2)
       | ln :: ls => ((c :: ln) :: ls, (splitNl cs).2)) := by
  simp only [splitNl, if_neg hc]

theorem splitNl_append (x y : List Char) :
    splitNl (x ++ y) =
      ((splitNl x).1 ++ (splitNl ((splitNl x).2 ++ y)).1,
        (splitNl ((splitNl x).2 ++ y)).2) := by
  induction x with
  | nil => simp [splitNl]
  | cons c cs ih =>
    by_cases hc : c = '\n'
    · subst hc
      rw [List.cons_append, splitNl_cons_nl, splitNl_cons_nl, ih]
      simp
    · rw [List.cons_append, splitNl_cons c (cs ++ y) hc, splitNl_cons c cs hc, ih]
      cases hcs : (splitNl cs).1 with
      | nil =>
        simp only [hcs, List.nil_append, List.cons_append]
        rw [splitNl_cons c ((splitNl cs).2 ++ y) hc]
      | cons ln ls => simp [hcs]

theorem splitNl_frag_noNl (s : List Char) : ∀ c ∈ (splitNl s).2, c ≠ '\n' := by
  induction s with
  | nil => intro c hc; simp [splitNl] at hc
  | cons c cs ih =>
    intro c2 hc2
    by_cases hc : c = '\n'
    · subst hc
      rw [splitNl_cons_nl] at hc2
      exact ih c2 hc2
    · rw [splitNl_cons c cs hc] at hc2
      cases hcs : (splitNl cs).1 with
      | nil =>
        rw [hcs] at hc2
        simp at hc2
        rcases hc2 with h | h
        · subst h; exact hc
        · exact ih c2 h
      | cons ln ls =>
        rw [hcs] at hc2
        exact ih c2 hc2

theorem splitNl_noNl (u : List Char) (h : ∀ c ∈ u, c ≠ '\n') : splitNl u = ([], u) := by
  induction u with
  | nil => rfl
  | cons c cs ih =>
    have hc : c ≠ '\n' := h c (by simp)
    have hcs : splitNl cs = ([], cs) := ih (fun c2 hc2 => h c2 (by simp [hc2]))
    rw [splitNl_cons c cs hc, hcs]

theorem procLine_buffer (st : RSt) (ln : List Char) : (procLine st ln).buffer = st.buffer := by
  unfold procLine
  cases classifyLine st.full ln with
  | skip => rfl
  | emit d => rfl
  | finish ok => cases ok <;> rfl

theorem procLine_bufferSet (st : RSt) (v : List Char) (ln : List Char) :
    procLine { st with buffer := v } ln = { procLine st ln with buffer := v } := by
  unfold procLine
  show (match classifyLine st.full ln with
        | .skip => _ | .emit _ => _ | .finish true => _ | .finish false => _) = _
  cases classifyLine st.full ln with
  | skip => rfl
  | emit d => rfl
  | finish ok => cases ok <;> rfl

theorem procLines_closed (st : RSt) (hc : st.closed = true) (L : List (List Char)) :
    procLines st L = st := by
  cases L with
  | nil => rfl
  | cons ln rest => simp [procLines, hc]

theorem procLines_bufferSet (L : List (List Char)) : ∀ (st : RSt) (v : List Char),
    procLines { st with buffer := v } L = { procLines st L with buffer := v } := by
  induction L with
  | nil => intro st v; rfl
  | cons ln rest ih =>
    intro st v
    show (if st.closed then _ else _) = _
    by_cases hc : st.closed = true
    · rw [if_pos hc]
      conv_rhs => rw [procLines, if_pos hc]
    · rw [if_neg hc]
      have h2 : procLines st (ln :: rest) = procLines (procLine st ln) rest := by
        rw [procLines, if_neg hc]
      rw [h2, procLine_bufferSet, ih]

theorem procLines_append (L1 L2 : List (List Char)) : ∀ (st : RSt),
    procLines st (L1 ++ L2) = procLines (procLines st L1) L2 := by
  induction L1 with
  | nil => intro st; rfl
  | cons ln rest ih =>
    intro st
    by_cases hc : st.closed = true
    · rw [procLines_closed st hc, procLines_closed st hc, procLines_closed st hc]
    · simp only [List.cons_append, procLines, if_neg hc]
      exact ih (procLine st ln)

/-- The buffer never re-acquires a newline: a well-formed relay state. -/
def WFb (st : RSt) : Prop := ∀ c ∈ st.buffer, c ≠ '\n'

theorem wfb_init : WFb initSt := by
  intro c hc
  simp [initSt] at hc

/-- Unfolding `onData` on an open state. -/
theorem onData_open {st : RSt} (hc : st.closed = false) (c : List Char) :
    onData st c = { procLines st (splitNl (st.buffer ++ c)).1 with
                    buffer := (splitNl (st.buffer ++ c)).2 } := by
  unfold onData
  rw [if_neg (by simp [hc]), procLines_bufferSet]

theorem onData_closed {st : RSt} (hc : st.closed = true) (c : List Char) :
    onData st c = st := by
  unfold onData
  rw [if_pos (by simp [hc])]

theorem onData_wfb {st : RSt} (hw : WFb st) (chunk : List Char) : WFb (onData st chunk) := by
  by_cases hc : st.closed = true
  · rw [onData_closed hc]; exact hw
  · rw [onData_open (by simpa using hc)]
    intro c hcm
    rw [bufferSet_buffer] at hcm
    exact splitNl_frag_noNl (st.buffer ++ chunk) c hcm

theorem onData_nil {st : RSt} (h : WFb st) : onData st [] = st := by
  by_cases hc : st.closed = true
  · exact onData_closed hc []
  · rw [onData_open (by simpa using hc), List.append_nil, splitNl_noNl st.buffer h]
    rfl

/-- Observational equivalence of relay states: equal on everything the emitted trace and
the stored history can ever depend on (the line buffer is irrelevant once closed). -/
def obsEq (s t : RSt) : Prop :=
  s.full = t.full ∧ s.closed = t.closed ∧ s.events = t.events ∧ s.history = t.history ∧
    (s.closed = false → s.buffer = t.buffer)

theorem obsEq_refl (s : RSt) : obsEq s s := ⟨rfl, rfl, rfl, rfl, fun _ => rfl⟩

theorem obsEq_symm {s t : RSt} (h : obsEq s t) : obsEq t s := by
  obtain ⟨h1, h2, h3, h4, h5⟩ := h
  refine ⟨h1.symm, h2.symm, h3.symm, h4.symm, fun hc => ?_⟩
  have : s.closed = false := h2.trans hc
  exact (h5 this).symm

theorem obsEq_trans {s t u : RSt} (h : obsEq s t) (h2 : obsEq t u) : obsEq s u := by
  obtain ⟨a1, a2, a3, a4, a5⟩ := h
  obtain ⟨b1, b2, b3, b4, b5⟩ := h2
  refine ⟨a1.trans b1, a2.trans b2, a3.trans b3, a4.trans b4, fun hc => ?_⟩
  exact (a5 hc).trans (b5 (a2.symm.trans hc))

theorem rst_eq {s t : RSt} (h1 : s.buffer = t.buffer) (h2 : s.full = t.full)
    (h3 : s.closed = t.closed) (h4 : s.events = t.events) (h5 : s.history = t.history) :
    s = t := by
  cases s; cases t
  simp_all

/-- Two observationally equal states that are not closed are equal outright. -/
theorem obsEq_open_eq {s t : RSt} (h : obsEq s t) (hc : s.closed = false) : s = t :=
  rst_eq (h.2.2.2.2 hc) h.1 h.2.1 h.2.2.1 h.2.2.2.1

/-- Splitting one chunk in two does not change the observable relay state. -/
theorem onData_merge (st : RSt) (a b : List Char) :
    obsEq (onData (onData st a) b) (onData st (a ++ b)) := by
  by_cases hc : st.closed = true
  · rw [onData_closed hc, onData_closed hc, onData_closed hc]
    exact obsEq_refl st
  · have hcf : st.closed = false := by simpa using hc
    have hsplit := splitNl_append (st.buffer ++ a) b
    rw [List.append_assoc] at hsplit
    rw [onData_open hcf a]
    set P := splitNl (st.buffer ++ a) with hP
    set Q1 := procLines st P.1 with hQ1
    set C := splitNl (P.2 ++ b) with hC
    by_cases hq : Q1.closed = true
    · -- the first chunk closed the stream: the second chunk is ignored
      have hL : onData ({ Q1 with buffer := P.2 } : RSt) b = { Q1 with buffer := P.2 } :=
        onData_closed (by rw [bufferSet_closed]; exact hq) b
      have hR : onData st (a ++ b) =
          { procLines Q1 C.1 with buffer := C.2 } := by
        rw [onData_open hcf (a ++ b), hsplit]
        rw [procLines_append, ← hQ1]
      rw [hL, hR, procLines_closed Q1 hq]
      exact ⟨rfl, rfl, rfl, rfl, fun hcf2 => by rw [bufferSet_closed] at hcf2; simp [hq] at hcf2⟩
    · have hqf : ({ Q1 with buffer := P.2 } : RSt).closed = false := by
        rw [bufferSet_closed]; simpa using hq
      have hL : onData ({ Q1 with buffer := P.2 } : RSt) b =
          { procLines Q1 C.1 with buffer := C.2 } := by
        rw [onData_open hqf b]
        rw [bufferSet_buffer, ← hC, procLines_bufferSet, bufferSet_bufferSet]
      have hR : onData st (a ++ b) =
          { procLines Q1 C.1 with buffer := C.2 } := by
        rw [onData_open hcf (a ++ b), hsplit]
        rw [procLines_append, ← hQ1]
      rw [hL, hR]
      exact obsEq_refl _

/-- `onData` respects observational equivalence. -/
theorem onData_congr {s t : RSt} (h : obsEq s t) (c : List Char) :
    obsEq (onData s c) (onData t c) := by
  by_cases hc : s.closed = true
  · have hct : t.closed = true := h.2.1 ▸ hc
    rw [onData_closed hc, onData_closed hct]
    exact h
  · have hcf : s.closed = false := by simpa using hc
    rw [obsEq_open_eq h hcf]
    exact obsEq_refl _

/-- Processing a chunk list is observationally the same as processing its concatenation
as a single chunk. -/
theorem foldl_onData_join (chunks : List (List Char)) : ∀ (st : RSt), WFb st →
    obsEq (chunks.foldl onData st) (onData st chunks.flatten) := by
  induction chunks with
  | nil =>
    intro st hwf
    rw [List.foldl_nil, List.flatten_nil, onData_nil hwf]
    exact obsEq_refl st
  | cons c cs ih =>
    intro st hwf
    rw [List.foldl_cons, List.flatten_cons]
    exact obsEq_trans (ih (onData st c) (onData_wfb hwf c)) (onData_merge st c (cs.flatten))

/-- Observationally equal states produce identical final traces. -/
theorem relay_end_congr {s t : RSt} (h : obsEq s t) (ek : EndK) :
    (match ek with | EndK.normal => onEnd s | EndK.failed => onError s).events =
      (match ek with | EndK.normal => onEnd t | EndK.failed => onError t).events := by
  by_cases hc : s.closed = true
  · have hct : t.closed = true := h.2.1 ▸ hc
    have h1 : onEnd s = s := by unfold onEnd; rw [if_pos (by simp [hc])]
    have h2 : onEnd t = t := by unfold onEnd; rw [if_pos (by simp [hct])]
    have h3 : onError s = s := by unfold onError; rw [if_pos (by simp [hc])]
    have h4 : onError t = t := by unfold onError; rw [if_pos (by simp [hct])]
    cases ek
    · rw [h1, h2]; exact h.2.2.1
    · rw [h3, h4]; exact h.2.2.1
  · have hcf : s.closed = false := by simpa using hc
    rw [obsEq_open_eq h hcf]

end NuSkynet

namespace NuSkynet

set_option maxRecDepth 1000000

/-! ### Claim C1 -/

/-- C1: the claim that `rewrite` output never contains a whole-word case-insensitive
occurrence of a forbidden term is violated by the code: on input
`"Anthropica AI assistant"` (which itself contains no whole-word forbidden term) the
cleanup rule `\s*an?\s*AI\s*assistant\s*\.?\s*$`, which runs after the fallback pass,
strips the trailing `"a AI assistant"` and leaves exactly `"Anthropic"` — a whole-word
occurrence of a forbidden term in the output. -/
theorem cleanup_reintroduces_forbidden_term :
    rewriteString "Anthropica AI assistant" = "Anthropic" ∧
    hasWW "anthropic".data "Anthropic".data = true ∧
    hasWW "anthropic".data "Anthropica AI assistant".data = false ∧
    hasWW "claude".data "Anthropica AI assistant".data = false := by decide

/-! ### Claim C2 -/

/-- C2 is false as stated: when the upstream stream ends without a `[DONE]` sentinel
line, the `end` handler just closes the controller — the emitted trace is a lone `Delta`
with no terminal event at all. -/
theorem relay_end_without_done_no_terminal :
    (relay ["data: \x7b\"delta\": \x7b\"text\": \"Hi\"\x7d\x7d\n".data] EndK.normal).events
        = [Ev.delta "Hi".data] ∧
    hasTerminal (relay ["data: \x7b\"delta\": \x7b\"text\": \"Hi\"\x7d\x7d\n".data]
        EndK.normal).events = false := by decide

/-- C2 (amended): for every upstream chunk sequence the emitted event sequence is zero or
more `Delta` events followed by *at most* one terminal event, the terminal always last;
a terminal is present exactly when the upstream transport errored or a `[DONE]` line
closed the stream — when the upstream ends normally without the sentinel, the relay
closes with no terminal event. -/
theorem relay_trace_deltas_then_terminal (chunks : List (List Char)) (ek : EndK) :
    shapeOk (relay chunks ek).events = true ∧
    hasTerminal (relay chunks ek).events =
      (match ek with
       | EndK.normal => (chunks.foldl onData initSt).closed
       | EndK.failed => true) := by
  have hmid : InvR (chunks.foldl onData initSt) := foldl_onData_invR chunks invR_init
  cases ek with
  | normal =>
    have hrel : relay chunks EndK.normal = onEnd (chunks.foldl onData initSt) := rfl
    rw [hrel]
    have h := onEnd_invR hmid
    exact ⟨h.1, h.2.1⟩
  | failed =>
    have hrel : relay chunks EndK.failed = onError (chunks.foldl onData initSt) := rfl
    rw [hrel]
    have h := onError_invR hmid
    exact ⟨h.1, h.2.1⟩

/-! ### Claim C3 -/

/-- C3 is false as stated: on `[DONE]` with an accumulated response that does not parse
as JSON, the relay enqueues `data: {"error": "Failed to parse complete response"}` and
closes — an `Error` event, not the claimed `Done`. -/
theorem done_parse_failure_not_logged_only :
    (relay ["data: \x7b\"delta\": \x7b\"text\": \"Hi\"\x7d\x7d\ndata: [DONE]\n".data]
        EndK.normal).events = [Ev.delta "Hi".data, Ev.error parseErrMsg] ∧
    Ev.done ∉ (relay ["data: \x7b\"delta\": \x7b\"text\": \"Hi\"\x7d\x7d\ndata: [DONE]\n".data]
        EndK.normal).events := by decide

/-- C3 (amended): when the relay receives the sentinel line `data: [DONE]` it emits
exactly one terminal event and closes — `Done` when `JSON.parse(fullResponse)` succeeds,
and otherwise an `Error("Failed to parse complete response")` in place of `Done`: the
incidental parse failure is turned into an error frame, not merely logged. -/
theorem done_line_emits_done_or_error (chunks : List (List Char))
    (h1 : (chunks.foldl onData initSt).closed = false)
    (h2 : (chunks.foldl onData initSt).buffer = []) :
    (relay (chunks ++ ["data: [DONE]\n".data]) EndK.normal).events =
      (chunks.foldl onData initSt).events ++
        [if (jsonParse (chunks.foldl onData initSt).full).isSome then Ev.done
         else Ev.error parseErrMsg] := by
  have honend : ∀ st : RSt, st.closed = true → onEnd st = st := by
    intro st hc
    unfold onEnd
    rw [if_pos (by simp [hc])]
  have hrel : relay (chunks ++ ["data: [DONE]\n".data]) EndK.normal =
      onEnd ((chunks ++ ["data: [DONE]\n".data]).foldl onData initSt) := rfl
  have hfold : (chunks ++ ["data: [DONE]\n".data]).foldl onData initSt =
      onData (chunks.foldl onData initSt) ("data: [DONE]\n".data) := by
    rw [List.foldl_append]
    rfl
  have hD : onData (chunks.foldl onData initSt) ("data: [DONE]\n".data) =
      { procLines (chunks.foldl onData initSt) [doneLine] with buffer := ([] : List Char) } := by
    rw [onData_open h1, h2]
    rw [show splitNl (([] : List Char) ++ "data: [DONE]\n".data) = ([doneLine], []) from by
      decide]
  have hproc : procLines (chunks.foldl onData initSt) [doneLine] =
      procLine (chunks.foldl onData initSt) doneLine := by
    rw [procLines, if_neg (by simp [h1])]
    rfl
  have hclass : classifyLine (chunks.foldl onData initSt).full doneLine =
      LineAct.finish (jsonParse (chunks.foldl onData initSt).full).isSome := by
    unfold classifyLine
    rw [if_neg (by decide), if_pos rfl]
  have hline : procLine (chunks.foldl onData initSt) doneLine =
      (if (jsonParse (chunks.foldl onData initSt).full).isSome then
        { chunks.foldl onData initSt with
            history := (chunks.foldl onData initSt).history ++
              [(chunks.foldl onData initSt).full],
            events := (chunks.foldl onData initSt).events ++ [Ev.done], closed := true }
       else
        { chunks.foldl onData initSt with
            events := (chunks.foldl onData initSt).events ++ [Ev.error parseErrMsg],
            closed := true }) := by
    unfold procLine
    rw [hclass]
    cases (jsonParse (chunks.foldl onData initSt).full).isSome with
    | true => rfl
    | false => rfl
  rw [hrel, hfold, hD, hproc, hline]
  by_cases hjp : (jsonParse (chunks.foldl onData initSt).full).isSome = true
  · rw [if_pos hjp, if_pos hjp, honend _ rfl]
  · rw [if_neg hjp, if_neg hjp, honend _ rfl]

/-- C3 witness: a concrete stream whose accumulated text `"Hi"` is not valid JSON — the
amended theorem applies and the terminal is the error frame. -/
theorem done_line_emits_done_or_error_witness :
    (relay (["data: \x7b\"delta\": \x7b\"text\": \"Hi\"\x7d\x7d\n".data] ++
        ["data: [DONE]\n".data]) EndK.normal).events =
      (["data: \x7b\"delta\": \x7b\"text\": \"Hi\"\x7d\x7d\n".data].foldl onData
          initSt).events ++
        [if (jsonParse (["data: \x7b\"delta\": \x7b\"text\": \"Hi\"\x7d\x7d\n".data].foldl
            onData initSt).full).isSome then Ev.done
         else Ev.error parseErrMsg] :=
  done_line_emits_done_or_error _ (by decide) (by decide)

/-! ### Claim C4 -/

/-- C4: the emitted trace is independent of how the upstream byte sequence is split into
chunks: any two chunkings with the same concatenation produce identical event traces
(in particular identical `Delta` sequences). -/
theorem relay_chunking_independent (c1 c2 : List (List Char)) (ek : EndK)
    (h : c1.flatten = c2.flatten) :
    (relay c1 ek).events = (relay c2 ek).events := by
  have h1 := foldl_onData_join c1 initSt wfb_init
  have h2 := foldl_onData_join c2 initSt wfb_init
  rw [h] at h1
  have hmid : obsEq (c1.foldl onData initSt) (c2.foldl onData initSt) :=
    obsEq_trans h1 (obsEq_symm h2)
  have hend := relay_end_congr hmid ek
  cases ek with
  | normal =>
    have e1 : relay c1 EndK.normal = onEnd (c1.foldl onData initSt) := rfl
    have e2 : relay c2 EndK.normal = onEnd (c2.foldl onData initSt) := rfl
    rw [e1, e2]
    exact hend
  | failed =>
    have e1 : relay c1 EndK.failed = onError (c1.foldl onData initSt) := rfl
    have e2 : relay c2 EndK.failed = onError (c2.foldl onData initSt) := rfl
    rw [e1, e2]
    exact hend

/-- C4 witness: one whole chunk versus a split in the middle of the JSON frame and in the
middle of the `[DONE]` line — identical traces. -/
theorem relay_chunking_independent_witness :
    (relay ["data: \x7b\"delta\": \x7b\"text\": \"Hi\"\x7d\x7d\ndata: [DONE]\n".data]
        EndK.normal).events =
    (relay ["data: \x7b\"del".data, "ta\": \x7b\"text\": \"Hi\"\x7d\x7d\nda".data,
        "ta: [DONE]\n".data] EndK.normal).events :=
  relay_chunking_independent _ _ _ (by decide)

/-! ### Claim C5 -/

/-- C5: after any sequence of appends to one session, the stored history is exactly the
last 20 appended messages, in append order (so its length is at most 20 and the oldest
entries are evicted first). -/
theorem history_bounded_most_recent (appends : List (String × ContentArg)) :
    (appends.foldl (fun h rc => addToConversationHistory h rc.1 rc.2) []).length ≤ 20 ∧
    appends.foldl (fun h rc => addToConversationHistory h rc.1 rc.2) [] =
      takeRight 20 (appends.map mkMsg) := by
  have h := foldl_addHist appends []
  rw [show takeRight 20 ([] : List Msg) = [] from rfl, List.nil_append] at h
  constructor
  · rw [h]
    exact takeRight_length_le 20 _
  · exact h

/-! ### Claim C6 -/

/-- C6: context shaping: the transform preserves length; leaves the final message
unchanged; shapes a singleton history to itself; and maps every earlier message to its
context-wrapped form when user-authored and to itself otherwise (assistant messages pass
through unchanged at every position). -/
theorem context_shaping (h : List Msg) (_hne : h ≠ []) :
    (formatConversationForClaude h).length = h.length ∧
    (formatConversationForClaude h)[h.length - 1]? = h[h.length - 1]? ∧
    (h.length = 1 → formatConversationForClaude h = h) ∧
    ∀ i, i < h.length - 1 →
      (formatConversationForClaude h)[i]? =
        (h[i]?).map (fun m => if m.role = "user" then wrapCtx m else m) := by
  refine ⟨shapeFrom_length h.length 0 h, ?_, ?_, ?_⟩
  · rw [formatConversationForClaude, shapeFrom_getElem?]
    cases hl : h[h.length - 1]? with
    | none => rfl
    | some m =>
      simp only [Option.map_some']
      unfold shapeMsg
      rw [if_pos (by omega)]
  · intro h1
    match h, h1 with
    | [m], _ =>
      show shapeMsg 1 0 m :: shapeFrom 1 1 [] = [m]
      unfold shapeMsg
      rw [if_pos (by omega)]
      rfl
  · intro i hi
    rw [formatConversationForClaude, shapeFrom_getElem?]
    cases hl : h[i]? with
    | none => rfl
    | some m =>
      simp only [Option.map_some']
      unfold shapeMsg
      rw [if_neg (by omega)]

/-- C6 witness: on the history `[u1, a1, u2]` the first (user) message is wrapped as
background context; a singleton `[u1]` is shaped to itself unchanged. -/
theorem context_shaping_witness :
    (formatConversationForClaude
        [⟨"user", [⟨"text", "hello"⟩]⟩, ⟨"assistant", [⟨"text", "hi"⟩]⟩,
          ⟨"user", [⟨"text", "next"⟩]⟩])[0]? =
      (([⟨"user", [⟨"text", "hello"⟩]⟩, ⟨"assistant", [⟨"text", "hi"⟩]⟩,
          ⟨"user", [⟨"text", "next"⟩]⟩] : List Msg)[0]?).map
        (fun m => if m.role = "user" then wrapCtx m else m) ∧
    formatConversationForClaude [(⟨"user", [⟨"text", "hello"⟩]⟩ : Msg)] =
      [⟨"user", [⟨"text", "hello"⟩]⟩] :=
  ⟨(context_shaping _ (by decide)).2.2.2 0 (by decide),
    (context_shaping _ (by decide)).2.2.1 (by decide)⟩

/-! ### Claim C7 -/

/-- C7 is false as stated: `"Nu SkyNet Nu SkyNet Nu SkyNet"` contains no whole-word
occurrence of any forbidden term, yet `rewrite` is not idempotent on it — the doubled-
brand collapse is a single left-to-right pass, so three adjacent brand mentions need two
applications to converge. -/
theorem rewrite_not_idempotent_on_clean_input :
    hasWW "claude".data "Nu SkyNet Nu SkyNet Nu SkyNet".data = false ∧
    hasWW "anthropic".data "Nu SkyNet Nu SkyNet Nu SkyNet".data = false ∧
    rewriteString "Nu SkyNet Nu SkyNet Nu SkyNet" = "Nu SkyNet Nu SkyNet" ∧
    rewriteString "Nu SkyNet Nu SkyNet" = "Nu SkyNet" ∧
    rewriteString (rewriteString "Nu SkyNet Nu SkyNet Nu SkyNet") ≠
      rewriteString "Nu SkyNet Nu SkyNet Nu SkyNet" := by decide

/-- C7 (amended): `rewrite` is idempotent at every input it already leaves unchanged —
in particular on ordinary clean text such as `"Hello world"` — but not on every clean
input (see the counterexample: repeated adjacent brand mentions keep shrinking). -/
theorem rewrite_idempotent_on_fixed_points :
    (∀ x : String, rewriteString x = x → rewriteString (rewriteString x) = rewriteString x) ∧
    rewriteString "Hello world" = "Hello world" :=
  ⟨fun _ h => by rw [h]; exact h, by decide⟩

/-- C7 witness: idempotence at the concrete fixed point `"Hello world"`. -/
theorem rewrite_idempotent_on_fixed_points_witness :
    rewriteString (rewriteString "Hello world") = rewriteString "Hello world" :=
  rewrite_idempotent_on_fixed_points.1 "Hello world" rewrite_idempotent_on_fixed_points.2

/-! ### Claim C8 -/

/-- C8 is false as stated: the engine itself inspects the request's headers — two calls
with the same payload and requests differing only in the `x-admin-raw-output` header
produce different `skipped` results, so the trust decision is not an already-verified
boolean supplied by the caller. -/
theorem bypass_decision_reads_request_headers :
    (filterNuSkynet (JVal.jstr "ok".data)
        (some ⟨[("x-admin-raw-output", "true")]⟩)).skipped = true ∧
    (filterNuSkynet (JVal.jstr "ok".data)
        (some ⟨[("x-admin-raw-output", "false")]⟩)).skipped = false ∧
    (filterNuSkynet (JVal.jstr "ok".data) (some ⟨[]⟩)).skipped = false := by decide

/-- C8 (amended): when the request carries the admin header `x-admin-raw-output: true`,
the engine skips rewriting and returns the original payload unchanged with
`skipped = true`; the decision is made inside `filterNuSkynet` by reading
`req.headers[CONFIG.ADMIN_HEADER]`, not from a caller-supplied verified boolean. -/
theorem admin_header_bypass (v : JVal) (r : Req)
    (h : getHeader r ADMIN_HEADER = some "true") :
    filterNuSkynet v (some r) = ⟨v, v, true⟩ := by
  have hstep : filterNuSkynet v (some r) =
      (if getHeader r ADMIN_HEADER = some "true" then (⟨v, v, true⟩ : FilterOut)
       else ⟨deepRewrite v, v, false⟩) := rfl
  rw [hstep, if_pos h]

/-- C8 witness: the bypass on a concrete payload and request. -/
theorem admin_header_bypass_witness :
    filterNuSkynet (JVal.jstr "raw payload".data)
        (some ⟨[("x-admin-raw-output", "true")]⟩) =
      ⟨JVal.jstr "raw payload".data, JVal.jstr "raw payload".data, true⟩ :=
  admin_header_bypass _ _ (by decide)

/-! ### Claim C9 -/

/-- C9 is false as stated: the rewritten scenario output is `"I am Nu SkyNet,."` — the
clause deletion leaves a dangling comma immediately before the final period, so the
output is not a well-formed sentence free of stray punctuation. -/
theorem scenario_output_has_dangling_comma :
    rewriteString "I am Claude, made by Anthropic." = "I am Nu SkyNet,." ∧
    subOcc ",.".data "I am Nu SkyNet,.".data = true := by decide

/-- C9 (amended): on the scenario input `"I am Claude, made by Anthropic."` the output is
exactly `"I am Nu SkyNet,."`: it contains neither `Claude` nor `Anthropic` (even as a
case-insensitive substring) and ends in exactly one period, but it retains a dangling
comma immediately before that period. -/
theorem scenario_forbidden_terms_removed_but_comma_remains :
    rewriteString "I am Claude, made by Anthropic." = "I am Nu SkyNet,." ∧
    hasSubCI "claude".data "I am Nu SkyNet,.".data = false ∧
    hasSubCI "anthropic".data "I am Nu SkyNet,.".data = false ∧
    endsOnePeriod "I am Nu SkyNet,.".data = true ∧
    subOcc ",.".data "I am Nu SkyNet,.".data = true := by decide

/-! ### Claim C10 -/

/-- C10: the assistant text appended to the conversation history on the streaming path is
exactly the raw concatenation of the forwarded `Delta` payloads — no rewrite is applied
to streamed deltas or to the accumulated text (the witness stores a text containing
`Claude`, which `rewriteString` would have changed). -/
theorem relay_history_is_raw_delta_concat (chunks : List (List Char)) (ek : EndK) :
    ∀ t ∈ (relay chunks ek).history, t = deltaConcat (relay chunks ek).events := by
  have hmid : InvR (chunks.foldl onData initSt) := foldl_onData_invR chunks invR_init
  cases ek with
  | normal =>
    have hrel : relay chunks EndK.normal = onEnd (chunks.foldl onData initSt) := rfl
    rw [hrel]
    have h := onEnd_invR hmid
    intro t ht
    have h2 := h.2.2.2 t ht
    rw [h2, h.2.2.1]
  | failed =>
    have hrel : relay chunks EndK.failed = onError (chunks.foldl onData initSt) := rfl
    rw [hrel]
    have h := onError_invR hmid
    intro t ht
    have h2 := h.2.2.2 t ht
    rw [h2, h.2.2.1]

/-- C10 witness: a streamed delta whose text is the JSON string `"Claude"` (quotes
included, so the accumulated response parses) is stored in history verbatim — and it is
not a fixed point of `rewriteString`, so the rewrite was not applied. -/
theorem relay_history_is_raw_delta_concat_witness :
    "\"Claude\"".data ∈ (relay
        ["data: \x7b\"delta\": \x7b\"text\": \"\\\"Claude\\\"\"\x7d\x7d\n".data,
          "data: [DONE]\n".data] EndK.normal).history ∧
    "\"Claude\"".data = deltaConcat (relay
        ["data: \x7b\"delta\": \x7b\"text\": \"\\\"Claude\\\"\"\x7d\x7d\n".data,
          "data: [DONE]\n".data] EndK.normal).events ∧
    rewriteString "\"Claude\"" ≠ "\"Claude\"" :=
  ⟨by decide,
    relay_history_is_raw_delta_concat _ _ _ (by decide),
    by decide⟩

end NuSkynet
